import Mathlib

/-!
Verification development for the metadata reconciliation and hierarchical
indexing engine of `nwb-conversion-tools` (icephys path).

Embedded source files:
* `nwb_conversion_tools/datainterfaces/icephys/abf/abf_neo_datainterface.py`
  — the recordings-metadata block of `AbfNeoDataInterface.get_metadata`
  (lines 46-127): per-file wall-clock start times, relative session start
  times via Python `timedelta`, and the three nested table counters.
* `nwb_conversion_tools/utils/neo.py` — `get_number_of_electrodes`,
  `get_number_of_segments`, `add_icephys_electrode`, `add_icephys_recording`.

Modelling conventions:
* Python ints are `Nat`/`Int`; Python floats that only carry exact decimal
  constants (`123.6`, `1000.0`, sampling rates, signal start times) are `ℚ`.
* A Python `datetime` built from `strptime(str(uFileStartDate), "%Y%m%d")`
  is represented by the ordinal day number of the parsed date; adding
  `timedelta(seconds=round(uFileStartTimeMS / 1000))` gives an absolute
  time in whole seconds.
* `timedelta.seconds` of a difference of whole-second datetimes is the
  normalized seconds-in-day component, i.e. the difference `emod 86400`
  (Python `%` on a positive modulus agrees with `Int.emod`).
* In-place mutation of the `NWBFile` plus raised warnings/exceptions is
  embedded as a `CallResult`: the (possibly partially) mutated file, the
  accumulated warning messages, and `some msg` when an exception was raised.
-/

namespace NwbConv


/-- The fields of a Neo `AxonIO` reader consumed by
`AbfNeoDataInterface.get_metadata`: `len(header["signal_channels"])`,
`header["nb_segment"][0]`, `_axon_info["uFileStartDate"]` (as the ordinal
day number of the parsed `%Y%m%d` date), `_axon_info["uFileStartTimeMS"]`,
and `filename`. -/
structure AbfReader where
  nbSignalChannels : Nat
  nbSegment0 : Nat
  uFileStartDateOrdinal : Int
  uFileStartTimeMS : Nat
  filename : String
  deriving DecidableEq

/-- One record of the optional metafile's `recording_sessions` list; the
keys read by `get_metadata` are `abf_file_name`, `stimulus_type` and
`icephys_experiment_type` (absent keys are `none`). -/
structure MetaSession where
  abf_file_name : String
  stimulus_type : Option String
  icephys_experiment_type : Option String
  deriving DecidableEq

/-- One element of `metadata["Icephys"]["Recordings"]` as built by
`AbfNeoDataInterface.get_metadata` (lines 111-122). -/
structure RecordingEntry where
  relative_session_start_time : Int
  stimulus_type : String
  icephys_experiment_type : Option String
  intracellular_recordings_table_id : Nat
  simultaneous_recordings_table_id : Nat
  sequential_recordings_table_id : Nat
  deriving DecidableEq

/-- Python `round(uFileStartTimeMS / 1000)` for a nonnegative integer number
of milliseconds: round half to even (ties, i.e. remainder 500, are exact in
binary floating point, so banker's rounding applies to exactly those). -/
def pyRoundMsToSec (ms : Nat) : Nat :=
  let q := ms / 1000
  let r := ms % 1000
  if r < 500 then q
  else if 500 < r then q + 1
  else if q % 2 = 0 then q else q + 1

/-- `startDate + timedelta(seconds=round(uFileStartTimeMS / 1000))`
(lines 48-52 and 94-98), expressed in whole seconds since the epoch of the
day ordinals. -/
def abfDateTimeSec (r : AbfReader) : Int :=
  r.uFileStartDateOrdinal * 86400 + (pyRoundMsToSec r.uFileStartTimeMS : Int)

/-- Python `timedelta(seconds=d).seconds`: the normalized representation of
a timedelta stores `0 ≤ seconds < 86400`, so `.seconds` is the Euclidean
remainder of the total-second difference by 86400 (days are discarded). -/
def timedeltaSeconds (d : Int) : Int := d % 86400

/-- `reader.filename.split("/")[-1]` (line 90). -/
def basenameOf (path : String) : String := (path.splitOn "/").getLastD ""

/-- Lines 91-92: `[s for s in metafile_sessions if s.get("abf_file_name", "") == abf_file_name]`,
then the first hit or nothing. -/
def extraInfoFor (sessions : List MetaSession) (name : String) : Option MetaSession :=
  (sessions.filter (fun s => s.abf_file_name == name)).head?

/-- The innermost loop of `get_metadata` (lines 110-123): `for el in
range(n_electrodes)`, emitting one entry per electrode and incrementing
the intracellular counter `i`. Returns the emitted entries and the new `i`. -/
def electrodeLoop (rel : Int) (stim : String) (expT : Option String) (ii iii : Nat) :
    Nat → Nat → List RecordingEntry × Nat
  | 0, i => ([], i)
  | n + 1, i =>
    let rest := electrodeLoop rel stim expT ii iii n (i + 1)
    (⟨rel, stim, expT, i, ii, iii⟩ :: rest.1, rest.2)

/-- The middle loop of `get_metadata` (lines 108-124): `for sg in
range(n_segments)`, running the electrode loop and incrementing the
simultaneous counter `ii` once per segment. Returns entries, new `i`,
new `ii`. -/
def segmentLoop (rel : Int) (stim : String) (expT : Option String) (nElec iii : Nat) :
    Nat → Nat → Nat → List RecordingEntry × Nat × Nat
  | 0, i, ii => ([], i, ii)
  | n + 1, i, ii =>
    let e := electrodeLoop rel stim expT ii iii nElec i
    let rest := segmentLoop rel stim expT nElec iii n e.2 (ii + 1)
    (e.1 ++ rest.1, rest.2)

/-- The outer loop of `get_metadata` (lines 88-125): one iteration per
reader, computing the per-file extra info, wall-clock start and relative
session start time, then running the segment loop and incrementing the
sequential counter `iii` once per file. -/
def readerLoop (firstTime : Int) (sessions : List MetaSession) :
    List AbfReader → Nat → Nat → Nat → List RecordingEntry × Nat × Nat
  | [], i, ii, _ => ([], i, ii)
  | r :: rest, i, ii, iii =>
    let extra := extraInfoFor sessions (basenameOf r.filename)
    let rel := timedeltaSeconds (abfDateTimeSec r - firstTime)
    let stim := match extra with
      | some s => s.stimulus_type.getD "not described"
      | none => "not described"
    let expT := extra.bind (fun s => s.icephys_experiment_type)
    let seg := segmentLoop rel stim expT r.nbSignalChannels iii r.nbSegment0 i ii
    let tail := readerLoop firstTime sessions rest seg.2.1 seg.2.2 (iii + 1)
    (seg.1 ++ tail.1, tail.2)

/-- The recordings-metadata block of `AbfNeoDataInterface.get_metadata`:
`first_session_time` comes from `readers_list[0]` (line 47; `none` when the
reader list is empty, where the source would raise `IndexError`), then the
triple loop starting from `i = ii = iii = 0` (lines 85-87). -/
def getMetadataRecordings (readers : List AbfReader) (sessions : List MetaSession) :
    Option (List RecordingEntry) :=
  match readers.head? with
  | none => none
  | some first => some (readerLoop (abfDateTimeSec first) sessions readers 0 0 0).1

/-- `sum (s_i * e_i)`: the number of emitted entries. -/
def totalEntries (rs : List AbfReader) : Nat :=
  (rs.map (fun r => r.nbSegment0 * r.nbSignalChannels)).sum

/-- `sum s_i`: the number of segments across all files. -/
def totalSegments (rs : List AbfReader) : Nat :=
  (rs.map (fun r => r.nbSegment0)).sum

/-- Sequential ids as the spec states them: the `s_j * e_j` entries of file
`j` (0-based, starting at `iii`) all share the id `iii + j`. -/
def seqExpected : List AbfReader → Nat → List Nat
  | [], _ => []
  | r :: rest, iii =>
    List.replicate (r.nbSegment0 * r.nbSignalChannels) iii ++ seqExpected rest (iii + 1)

/-- Simultaneous ids as the spec states them: a global segment counter
starting at `ii`; each segment's id is shared by all `e` electrodes of that
segment. -/
def simExpected : List AbfReader → Nat → List Nat
  | [], _ => []
  | r :: rest, ii =>
    (List.range r.nbSegment0).flatMap (fun t => List.replicate r.nbSignalChannels (ii + t))
      ++ simExpected rest (ii + r.nbSegment0)

/-- Relative session start times per entry: each of file `j`'s entries
carries the whole-second wall-clock difference to the first file, reduced by
`timedeltaSeconds` (the Python `timedelta.seconds` component). -/
def relExpected (firstTime : Int) : List AbfReader → List Int
  | [] => []
  | r :: rest =>
    List.replicate (r.nbSegment0 * r.nbSignalChannels)
        (timedeltaSeconds (abfDateTimeSec r - firstTime))
      ++ relExpected firstTime rest

/-- File 1 of the spec scenario: 2 segments × 2 electrodes. -/
def rFile1 : AbfReader := ⟨2, 2, 0, 0, "f1.abf"⟩

/-- File 2 of the spec scenario: 1 segment × 2 electrodes. -/
def rFile2 : AbfReader := ⟨2, 1, 0, 0, "f2.abf"⟩

/-- The six entries the code emits for the claim's scenario: intracellular
ids `0..5`, simultaneous ids `0,0,1,1,2,2`, sequential ids `0,0,0,0,1,1`. -/
def scenarioEntries : List RecordingEntry :=
  [⟨0, "not described", none, 0, 0, 0⟩, ⟨0, "not described", none, 1, 0, 0⟩,
   ⟨0, "not described", none, 2, 1, 0⟩, ⟨0, "not described", none, 3, 1, 0⟩,
   ⟨0, "not described", none, 4, 2, 1⟩, ⟨0, "not described", none, 5, 2, 1⟩]

/-- First counterexample file for C2: day ordinal 0, midnight. -/
def rDay0 : AbfReader := ⟨1, 1, 0, 0, "a.abf"⟩

/-- Second counterexample file for C2: one day later, 5 s after midnight, so
the true wall-clock difference is 86405 s. -/
def rDay1 : AbfReader := ⟨1, 1, 1, 5000, "b.abf"⟩

/-- The two entries the code emits for the C2 counterexample scenario. -/
def dayEntries : List RecordingEntry :=
  [⟨0, "not described", none, 0, 0, 0⟩, ⟨5, "not described", none, 1, 1, 1⟩]

/-! ## Embedding of `nwb_conversion_tools/utils/neo.py` -/

/-- A `pynwb` `Device`: when auto-generated from only a name, the description
is absent. -/
structure Device where
  name : String
  description : Option String
  deriving DecidableEq

/-- A `pynwb` icephys electrode; `deviceName` is the name of the linked
device (`device=nwbfile.devices[device_name]`, line 176). -/
structure IcephysElectrode where
  name : String
  description : String
  deviceName : String
  deriving DecidableEq

/-- `pynwb.icephys.VoltageClampSeries` / `VoltageClampStimulusSeries` with
the fields `add_icephys_recording` sets (lines 211-228); floats are `ℚ`. -/
structure VoltageClampSeries where
  name : String
  electrodeName : String
  data : List ℚ
  starting_time : ℚ
  rate : ℚ
  gain : ℚ
  deriving DecidableEq

/-- One row added by `nwbfile.add_intracellular_recording` (lines 230-232). -/
structure IntracellularRecordingRow where
  electrodeName : String
  stimulus : VoltageClampSeries
  response : VoltageClampSeries
  deriving DecidableEq

/-- The slice of a `pynwb.NWBFile` touched by the embedded functions.
The collections are insertion-ordered lists, mirroring `LabelledDict`. -/
structure NWBFile where
  devices : List Device
  icephys_electrodes : List IcephysElectrode
  intracellular_recordings : List IntracellularRecordingRow
  deriving DecidableEq

/-- One entry of a `Device` metadata override list. -/
structure DeviceDescr where
  name : String
  description : Option String
  deriving DecidableEq

/-- One entry of an `Electrodes` metadata override list: a Python dict whose
recognized keys may be absent. -/
structure ElecDescr where
  name : Option String
  description : Option String
  device_name : Option String
  deriving DecidableEq

/-- An element of a caller-supplied `Electrodes` override: either a mapping
or some non-dict value (which the assert at lines 158-160 rejects). -/
inductive ElecItem where
  | map (d : ElecDescr)
  | notMap
  deriving DecidableEq

/-- One modality section of the metadata override (`metadata["Icephys"]` or
`metadata["Ecephys"]`), restricted to the keys the embedded code reads. -/
structure SectionMeta where
  Device : Option (List DeviceDescr)
  Electrodes : Option (List ElecItem)
  deriving DecidableEq

/-- The caller-supplied metadata override mapping. -/
structure Metadata where
  Icephys : Option SectionMeta
  Ecephys : Option SectionMeta
  deriving DecidableEq

def deviceNames (f : NWBFile) : List String := f.devices.map (fun d => d.name)

def electrodeNames (f : NWBFile) : List String :=
  f.icephys_electrodes.map (fun e => e.name)

/-- `metadata[data_type]` lookup. -/
def sectionOf (dataType : String) (md : Option Metadata) : Option SectionMeta :=
  match md with
  | none => none
  | some m =>
    if dataType = "Icephys" then m.Icephys
    else if dataType = "Ecephys" then m.Ecephys
    else none

/-- The device descriptors named in `metadata[data_type]["Device"]`. -/
def deviceDescrs (dataType : String) (md : Option Metadata) : List DeviceDescr :=
  ((sectionOf dataType md).bind (fun sec => sec.Device)).getD []

/-- Modelled from the spec: `add_devices` is imported from
`nwb_conversion_tools.utils.conversion_tools`, a repository file that is not
among the provided sources. Per spec §4.1, a requested device is reused when
one with the same name already exists, else created and registered, and when
no device is named a default device `name="Device"`,
`description="no description"` is synthesized (matching the default in
`get_nwb_metadata`, `neo.py` lines 99-106). Descriptors are read from
`metadata[data_type]["Device"]`; the call sites in `neo.py` (lines 138 and
168) rely on the default `data_type="Ecephys"`. -/
def addDeviceStep (f : NWBFile) (d : DeviceDescr) : NWBFile :=
  if d.name ∈ deviceNames f then f
  else { f with devices := f.devices ++ [⟨d.name, d.description⟩] }

def add_devices (nwbfile : NWBFile) (dataType : String) (md : Option Metadata) : NWBFile :=
  let named := deviceDescrs dataType md
  let descrs := if named = [] then [⟨"Device", some "no description"⟩] else named
  descrs.foldl addDeviceStep nwbfile

/-- The result of an embedded Python call: the (possibly partially) mutated
file, the warnings raised via `warnings.warn`, and `some msg` when an
exception (assert/IndexError) was raised. -/
structure CallResult where
  nwbfile : NWBFile
  warnings : List String
  error : Option String
  deriving DecidableEq

/-- The warning text of `neo.py` line 137 (quotes dropped). -/
def noDevicesWarning : String :=
  "When adding Icephys Electrode, no Devices were found on nwbfile. Creating a Device now..."

/-- The warning text of `neo.py` lines 169-172 (quotes dropped). -/
def autoDeviceWarning (device_name : String) : String :=
  s!"Device {device_name} not detected in attempted link to icephys electrode! Automatically generating."

/-- The assert message of `neo.py` line 160 (brackets and quotes dropped). -/
def electrodesAssertMsg : String :=
  "Expected metadata Icephys Electrodes to be a list of dictionaries!"

def indexErrorMsg : String := "IndexError: list index out of range"

/-- A fully-populated default electrode descriptor (lines 146-153). -/
structure DefaultElec where
  name : String
  description : String
  device_name : String
  deriving DecidableEq

/-- Lines 146-153: one default per `range(get_number_of_electrodes(reader))`
with `device_name = [i.name for i in nwbfile.devices.values()][0]`; the
comprehension body is only evaluated when `n > 0`, and indexes `[0]` into the
device-name list, raising `IndexError` (`none` here) when there is none. -/
def defaultElecList (n : Nat) (f : NWBFile) : Option (List DefaultElec) :=
  if n = 0 then some []
  else
    match (deviceNames f).head? with
    | none => none
    | some dn =>
      some ((List.range n).map (fun eid =>
        ⟨s!"icephys_electrode_{eid}", "no description", dn⟩))

/-- Lines 136-138: when the file has no devices, warn and run `add_devices`
with the caller's metadata (default `data_type`, i.e. `"Ecephys"`). -/
def repairStage (nwbfile : NWBFile) (md : Option Metadata) : NWBFile × List String :=
  if nwbfile.devices = [] then (add_devices nwbfile "Ecephys" md, [noDevicesWarning])
  else (nwbfile, [])

/-- The body of the loop at lines 163-178 for one descriptor `elec`, given
`d0 = defaults[0]` (whose lookup precedes everything else in the body):
skip when the resolved name is already an icephys electrode; else resolve the
device name, auto-creating the device (with only its name) plus a warning
when absent; then create the electrode linked by `device_name`. -/
def createElectrodeStep (d0 : DefaultElec) (st : NWBFile × List String)
    (elec : ElecDescr) : NWBFile × List String :=
  let name := elec.name.getD d0.name
  if name ∈ electrodeNames st.1 then st
  else
    let device_name := elec.device_name.getD d0.device_name
    let st1 :=
      if device_name ∈ deviceNames st.1 then st
      else
        (add_devices st.1 "Ecephys" (some ⟨none, some ⟨some [⟨device_name, none⟩], none⟩⟩),
          st.2 ++ [autoDeviceWarning device_name])
    ({ st1.1 with icephys_electrodes := st1.1.icephys_electrodes
        ++ [⟨name, elec.description.getD d0.description, device_name⟩] }, st1.2)

def toDescr : ElecItem → Option ElecDescr
  | .map d => some d
  | .notMap => none

def isMapItem : ElecItem → Bool
  | .map _ => true
  | .notMap => false

/-- The slice of a Neo reader consumed by `neo.py`:
`header["signal_channels"]` length, `header["nb_segment"][0]`,
`read_raw_protocol()[0]` (per-segment, per-channel command traces),
`get_signal_t_start(0, seg)`, `get_signal_sampling_rate()`, and
`get_analogsignal_chunk(0, seg, chan)`. -/
structure NeoReader where
  nbSignalChannels : Nat
  nbSegment0 : Nat
  protocolTraces : List (List (List ℚ))
  signalTStart : Nat → ℚ
  samplingRate : ℚ
  analogChunk : Nat → Nat → List ℚ

/-- `get_number_of_electrodes` (`neo.py` lines 42-52):
`len(neo_reader.header["signal_channels"])`. -/
def get_number_of_electrodes (r : NeoReader) : Nat := r.nbSignalChannels

/-- `get_number_of_segments(neo_reader, block=0)` (`neo.py` lines 56-67):
`neo_reader.header["nb_segment"][block]`, embedded for block 0. -/
def get_number_of_segments (r : NeoReader) : Nat := r.nbSegment0

/-- Lines 155-156: the `Electrodes` override actually iterated — the
caller-supplied list when present and nonempty, else the defaults (each a
fully-populated dict). -/
def effectiveItems (defaults : List DefaultElec) (md : Option Metadata) : List ElecItem :=
  match (sectionOf "Icephys" md).bind (fun sec => sec.Electrodes) with
  | none =>
    defaults.map (fun d => ElecItem.map ⟨some d.name, some d.description, some d.device_name⟩)
  | some l =>
    if l = [] then
      defaults.map (fun d => ElecItem.map ⟨some d.name, some d.description, some d.device_name⟩)
    else l

/-- `add_icephys_electrode(neo_reader, nwbfile, metadata)` (`neo.py` lines
111-178), stage by stage in source order: the zero-device repair (136-138),
the defaults construction (146-153), substitution of the defaults when the
caller supplied no (or an empty) `Electrodes` list (155-156), the
list-of-dicts assert (158-160), and the per-descriptor creation loop
(163-178). `n_electrodes` comes from the reader. -/
def add_icephys_electrode (neo_reader : NeoReader) (nwbfile : NWBFile)
    (md : Option Metadata) : CallResult :=
  let st0 := repairStage nwbfile md
  match defaultElecList (get_number_of_electrodes neo_reader) st0.1 with
  | none => ⟨st0.1, st0.2, some indexErrorMsg⟩
  | some defaults =>
    let items := effectiveItems defaults md
    if items.all isMapItem then
      match items.filterMap toDescr with
      | [] => ⟨st0.1, st0.2, none⟩
      | descr :: rest =>
        match defaults.head? with
        | none => ⟨st0.1, st0.2, some indexErrorMsg⟩
        | some d0 =>
          let final := (descr :: rest).foldl (createElectrodeStep d0) st0
          ⟨final.1, final.2, none⟩
    else ⟨st0.1, st0.2, some electrodesAssertMsg⟩

/-- The response series of lines 211-219: name `response-{si}-ch-{ei}`, data
from `get_analogsignal_chunk`, `starting_time=get_signal_t_start(0, si)`,
`rate=get_signal_sampling_rate()`, `gain=1000.0`. -/
def mkResponse (r : NeoReader) (si ei : Nat) (el : IcephysElectrode) : VoltageClampSeries :=
  ⟨s!"response-{si}-ch-{ei}", el.name, r.analogChunk si ei, r.signalTStart si,
    r.samplingRate, 1000⟩

/-- The stimulus series of lines 221-228: name `stimulus-{si}-ch-{ei}`, data
`protocol[0][si][ei]`, `rate=get_signal_sampling_rate()`, the hard-coded
`starting_time=123.6`, `gain=1000.0`. -/
def mkStimulus (r : NeoReader) (si ei : Nat) (el : IcephysElectrode)
    (tr : List ℚ) : VoltageClampSeries :=
  ⟨s!"stimulus-{si}-ch-{ei}", el.name, tr, (123.6 : ℚ), r.samplingRate, 1000⟩

/-- The inner loop of `add_icephys_recording` (lines 209-232): `for ei,
electrode in enumerate(nwbfile.icephys_electrodes.values())`. The
`protocol[0][si][ei]` subscripts raise `IndexError` when out of range, after
the rows of earlier iterations were already committed. -/
def recElecLoop (r : NeoReader) (si : Nat) :
    List (Nat × IcephysElectrode) → NWBFile → NWBFile × Option String
  | [], f => (f, none)
  | (ei, el) :: rest, f =>
    let response := mkResponse r si ei el
    match (r.protocolTraces[si]?).bind (fun seg => seg[ei]?) with
    | none => (f, some indexErrorMsg)
    | some tr =>
      let stimulus := mkStimulus r si ei el tr
      recElecLoop r si rest
        { f with intracellular_recordings :=
            f.intracellular_recordings ++ [⟨el.name, stimulus, response⟩] }

/-- The outer loop of `add_icephys_recording` (lines 207-232): `for si in
range(n_segments)`, stopping at the first raised exception. -/
def recSegLoop (r : NeoReader) (elecs : List IcephysElectrode) :
    List Nat → NWBFile → NWBFile × Option String
  | [], f => (f, none)
  | si :: rest, f =>
    let res := recElecLoop r si elecs.enum f
    match res.2 with
    | some e => (res.1, some e)
    | none => recSegLoop r elecs rest res.1

/-- The assert message of `neo.py` lines 200-202. -/
def inconsistentMsg (n_segments n_commands : Nat) : String :=
  s!"File contains inconsistent number of segments ({n_segments}) and commands ({n_commands})"

/-- `add_icephys_recording(neo_reader, nwbfile, metadata)` (`neo.py` lines
182-232): reads `n_segments`, `n_electrodes` and `protocol =
read_raw_protocol()`; when `n_commands = len(protocol[0])` is zero the file
is an `i_zero` experiment (the local `experiment_type` is never used);
otherwise `n_commands == n_segments` is asserted before any row is appended;
then the nested segment/electrode loop appends one stimulus/response row per
pair. The unused `metadata` parameter of the source is dropped. -/
def add_icephys_recording (neo_reader : NeoReader) (nwbfile : NWBFile) : CallResult :=
  let n_segments := get_number_of_segments neo_reader
  let n_commands := neo_reader.protocolTraces.length
  if n_commands = 0 ∨ n_commands = n_segments then
    let res := recSegLoop neo_reader nwbfile.icephys_electrodes (List.range n_segments) nwbfile
    ⟨res.1, [], res.2⟩
  else ⟨nwbfile, [], some (inconsistentMsg n_segments n_commands)⟩

/-- A reader with one command trace but two declared segments. -/
def badReader : NeoReader := ⟨1, 2, [[[0]]], fun _ => 0, 1, fun _ _ => [0]⟩

/-- A small container with one device and one electrode. -/
def oneElecFile : NWBFile :=
  ⟨[⟨"dev0", some "d"⟩], [⟨"elec0", "e", "dev0"⟩], []⟩

/-- The row the loop body builds for enumerated electrode `p` in segment
`si` (on the success path, where the protocol subscripts are in range). -/
def recRowAt (r : NeoReader) (si : Nat) (p : Nat × IcephysElectrode) :
    IntracellularRecordingRow :=
  ⟨p.2.name,
   mkStimulus r si p.1 p.2 (((r.protocolTraces[si]?).bind (fun seg => seg[p.1]?)).getD []),
   mkResponse r si p.1 p.2⟩

/-- A one-segment, one-electrode reader whose signal start time is 7. -/
def c10Reader : NeoReader := ⟨1, 1, [[[2, 3]]], fun _ => 7, 5, fun _ _ => [4, 4]⟩

/-- The electrode→device referential-integrity invariant relative to the
pre-existing electrodes `E0`: every electrode beyond `E0` is linked by name
to a device present in the container. -/
def devLinked (f : NWBFile) (E0 : List IcephysElectrode) : Prop :=
  ∀ e ∈ f.icephys_electrodes, e ∈ E0 ∨ e.deviceName ∈ deviceNames f

/-- A trivial one-channel, one-segment reader for electrode-call scenarios. -/
def c5Reader : NeoReader := ⟨1, 1, [[[0]]], fun _ => 0, 1, fun _ _ => []⟩

/-- A container already holding electrode `e1` linked to `dev0`. -/
def c5File : NWBFile := ⟨[⟨"dev0", none⟩], [⟨"e1", "d", "dev0"⟩], []⟩

/-- An override whose only descriptor re-names the existing electrode `e1`
but points at the absent device `newdev`. -/
def c5Md : Metadata := ⟨some ⟨none, some [ElecItem.map ⟨some "e1", none, some "newdev"⟩]⟩, none⟩

/-- A default descriptor as lines 146-153 build it over `dev0`. -/
def c5d0 : DefaultElec := ⟨"icephys_electrode_0", "no description", "dev0"⟩

/-- The loop state for the C5 witness: one device, no electrodes yet. -/
def c5St : NWBFile × List String := (⟨[⟨"dev0", none⟩], [], []⟩, [])

/-- A fresh descriptor naming electrode `e9` on the absent device `newdev`. -/
def c5Elec : ElecDescr := ⟨some "e9", none, some "newdev"⟩

/-- An entirely empty container. -/
def c8File : NWBFile := ⟨[], [], []⟩

/-- An override whose `Electrodes` list contains a non-dict element. -/
def c8Md : Metadata := ⟨some ⟨none, some [ElecItem.notMap]⟩, none⟩

/-- A one-channel reader with no segments and no protocol. -/
def c8Reader : NeoReader := ⟨1, 0, [], fun _ => 0, 1, fun _ _ => []⟩

/-- A container that already has a device (and nothing else). -/
def c8bFile : NWBFile := ⟨[⟨"devA", none⟩], [], []⟩

theorem electrodeLoop_eq (rel : Int) (stim : String) (expT : Option String) (ii iii : Nat)
    (n : Nat) : ∀ i, electrodeLoop rel stim expT ii iii n i =
      ((List.range' i n).map (fun k => ⟨rel, stim, expT, k, ii, iii⟩), i + n) := by
  induction n with
  | zero => intro i; simp [electrodeLoop]
  | succ n ih =>
    intro i
    simp only [electrodeLoop, ih (i + 1), List.range'_succ, List.map_cons, Prod.mk.injEq]
    exact ⟨by trivial, by omega⟩

theorem segmentLoop_eq (rel : Int) (stim : String) (expT : Option String) (nElec iii : Nat)
    (nSeg : Nat) : ∀ i ii, segmentLoop rel stim expT nElec iii nSeg i ii =
      ((List.range nSeg).flatMap (fun t =>
          (List.range' (i + t * nElec) nElec).map
            (fun k => ⟨rel, stim, expT, k, ii + t, iii⟩)),
        i + nSeg * nElec, ii + nSeg) := by
  induction nSeg with
  | zero => intro i ii; simp [segmentLoop]
  | succ n ih =>
    intro i ii
    simp only [segmentLoop, electrodeLoop_eq, ih (i + nElec) (ii + 1), Prod.mk.injEq]
    refine ⟨?_, by ring, by omega⟩
    rw [List.range_succ_eq_map, List.flatMap_cons, List.flatMap_map]
    congr 1
    · simp
    · refine congrArg _ (funext fun t => ?_)
      have h1 : i + nElec + t * nElec = i + (t + 1) * nElec := by ring
      have h2 : ii + 1 + t = ii + (t + 1) := by ring
      rw [h1, h2]

theorem range_flatMap_range' (w : Nat) : ∀ (n i : Nat),
    (List.range n).flatMap (fun t => List.range' (i + t * w) w) = List.range' i (n * w) := by
  intro n
  induction n with
  | zero => intro i; simp
  | succ n ih =>
    intro i
    rw [List.range_succ, List.flatMap_append, ih i]
    simp only [List.flatMap_cons, List.flatMap_nil, List.append_nil]
    rw [List.range'_append_1]
    congr 1
    ring

theorem flatMap_const_replicate {α : Type} (x : α) (w : Nat) : ∀ n : Nat,
    (List.range n).flatMap (fun _ => List.replicate w x) = List.replicate (n * w) x := by
  intro n
  induction n with
  | zero => simp
  | succ n ih =>
    rw [List.range_succ, List.flatMap_append, ih]
    simp only [List.flatMap_cons, List.flatMap_nil, List.append_nil,
      List.append_replicate_replicate]
    congr 1
    ring

theorem chunk_map_intra (rel : Int) (stim : String) (expT : Option String)
    (nE iii nS i ii : Nat) :
    ((List.range nS).flatMap (fun t =>
        (List.range' (i + t * nE) nE).map
          (fun k => (⟨rel, stim, expT, k, ii + t, iii⟩ : RecordingEntry)))).map
      (fun e => e.intracellular_recordings_table_id) = List.range' i (nS * nE) := by
  rw [List.map_flatMap]
  have hfun : (fun t => ((List.range' (i + t * nE) nE).map
      (fun k => (⟨rel, stim, expT, k, ii + t, iii⟩ : RecordingEntry))).map
        (fun e => e.intracellular_recordings_table_id))
      = fun t => List.range' (i + t * nE) nE := by
    funext t
    rw [List.map_map]
    exact List.map_id _
  rw [hfun, range_flatMap_range']

theorem chunk_map_seq (rel : Int) (stim : String) (expT : Option String)
    (nE iii nS i ii : Nat) :
    ((List.range nS).flatMap (fun t =>
        (List.range' (i + t * nE) nE).map
          (fun k => (⟨rel, stim, expT, k, ii + t, iii⟩ : RecordingEntry)))).map
      (fun e => e.sequential_recordings_table_id) = List.replicate (nS * nE) iii := by
  rw [List.map_flatMap]
  have hfun : (fun t => ((List.range' (i + t * nE) nE).map
      (fun k => (⟨rel, stim, expT, k, ii + t, iii⟩ : RecordingEntry))).map
        (fun e => e.sequential_recordings_table_id))
      = fun t : Nat => List.replicate nE iii := by
    funext t
    rw [List.map_map]
    exact (List.map_const' _ iii).trans (by rw [List.length_range'])
  rw [hfun, flatMap_const_replicate]

theorem chunk_map_sim (rel : Int) (stim : String) (expT : Option String)
    (nE iii nS i ii : Nat) :
    ((List.range nS).flatMap (fun t =>
        (List.range' (i + t * nE) nE).map
          (fun k => (⟨rel, stim, expT, k, ii + t, iii⟩ : RecordingEntry)))).map
      (fun e => e.simultaneous_recordings_table_id)
      = (List.range nS).flatMap (fun t => List.replicate nE (ii + t)) := by
  rw [List.map_flatMap]
  refine congrArg _ (funext fun t => ?_)
  rw [List.map_map]
  exact (List.map_const' _ (ii + t)).trans (by rw [List.length_range'])

theorem chunk_map_rel (rel : Int) (stim : String) (expT : Option String)
    (nE iii nS i ii : Nat) :
    ((List.range nS).flatMap (fun t =>
        (List.range' (i + t * nE) nE).map
          (fun k => (⟨rel, stim, expT, k, ii + t, iii⟩ : RecordingEntry)))).map
      (fun e => e.relative_session_start_time) = List.replicate (nS * nE) rel := by
  rw [List.map_flatMap]
  have hfun : (fun t => ((List.range' (i + t * nE) nE).map
      (fun k => (⟨rel, stim, expT, k, ii + t, iii⟩ : RecordingEntry))).map
        (fun e => e.relative_session_start_time))
      = fun t : Nat => List.replicate nE rel := by
    funext t
    rw [List.map_map]
    exact (List.map_const' _ rel).trans (by rw [List.length_range'])
  rw [hfun, flatMap_const_replicate]

theorem readerLoop_spec (firstTime : Int) (ss : List MetaSession) :
    ∀ (rs : List AbfReader) (i ii iii : Nat),
      (readerLoop firstTime ss rs i ii iii).2.1 = i + totalEntries rs ∧
      (readerLoop firstTime ss rs i ii iii).2.2 = ii + totalSegments rs ∧
      (readerLoop firstTime ss rs i ii iii).1.map
          (fun e => e.intracellular_recordings_table_id) = List.range' i (totalEntries rs) ∧
      (readerLoop firstTime ss rs i ii iii).1.map
          (fun e => e.sequential_recordings_table_id) = seqExpected rs iii ∧
      (readerLoop firstTime ss rs i ii iii).1.map
          (fun e => e.simultaneous_recordings_table_id) = simExpected rs ii ∧
      (readerLoop firstTime ss rs i ii iii).1.map
          (fun e => e.relative_session_start_time) = relExpected firstTime rs := by
  intro rs
  induction rs with
  | nil =>
    intro i ii iii
    simp [readerLoop, totalEntries, totalSegments, seqExpected, simExpected, relExpected]
  | cons r rest ih =>
    intro i ii iii
    obtain ⟨h1, h2, h3, h4, h5, h6⟩ :=
      ih (i + r.nbSegment0 * r.nbSignalChannels) (ii + r.nbSegment0) (iii + 1)
    have htote : totalEntries (r :: rest)
        = r.nbSegment0 * r.nbSignalChannels + totalEntries rest := by
      simp [totalEntries]
    have htots : totalSegments (r :: rest) = r.nbSegment0 + totalSegments rest := by
      simp [totalSegments]
    simp only [readerLoop, segmentLoop_eq]
    refine ⟨?_, ?_, ?_, ?_, ?_, ?_⟩
    · rw [h1, htote]; omega
    · rw [h2, htots]; omega
    · rw [List.map_append, h3, chunk_map_intra, List.range'_append_1, htote]
      congr 1
      omega
    · rw [List.map_append, h4, chunk_map_seq]
      simp [seqExpected]
    · rw [List.map_append, h5, chunk_map_sim]
      simp [simExpected]
    · rw [List.map_append, h6, chunk_map_rel]
      simp [relExpected]

theorem mem_seqExpected (x : Nat) : ∀ (rs : List AbfReader) (iii : Nat),
    (∀ r ∈ rs, 0 < r.nbSegment0 ∧ 0 < r.nbSignalChannels) →
    (x ∈ seqExpected rs iii ↔ iii ≤ x ∧ x < iii + rs.length) := by
  intro rs
  induction rs with
  | nil =>
    intro iii _
    simp [seqExpected]
  | cons r rest ih =>
    intro iii hpos
    obtain ⟨hs, he⟩ := hpos r (List.mem_cons_self r rest)
    have hm : 0 < r.nbSegment0 * r.nbSignalChannels := Nat.mul_pos hs he
    have htail := ih (iii + 1) (fun rr hrr => hpos rr (List.mem_cons_of_mem r hrr))
    simp only [seqExpected, List.mem_append, List.mem_replicate, htail, List.length_cons]
    omega

theorem mem_simExpected (x : Nat) : ∀ (rs : List AbfReader) (ii : Nat),
    (∀ r ∈ rs, 0 < r.nbSignalChannels) →
    (x ∈ simExpected rs ii ↔ ii ≤ x ∧ x < ii + totalSegments rs) := by
  intro rs
  induction rs with
  | nil =>
    intro ii _
    simp [simExpected, totalSegments]
  | cons r rest ih =>
    intro ii hpos
    have he := hpos r (List.mem_cons_self r rest)
    have htail := ih (ii + r.nbSegment0) (fun rr hrr => hpos rr (List.mem_cons_of_mem r hrr))
    have htots : totalSegments (r :: rest) = r.nbSegment0 + totalSegments rest := by
      simp [totalSegments]
    simp only [simExpected, List.mem_append, List.mem_flatMap, List.mem_range,
      List.mem_replicate, htail, htots]
    constructor
    · rintro (⟨t, ht, -, rfl⟩ | h) <;> omega
    · intro h
      by_cases hx : x < ii + r.nbSegment0
      · exact Or.inl ⟨x - ii, by omega, by omega, by omega⟩
      · exact Or.inr (by omega)

/-- C1, counterexample: for the claim's own scenario (file 1 with 2 segments ×
2 electrodes, file 2 with 1 segment × 2 electrodes) the code emits six
entries whose `intracellular_recordings_table_id`s are `0..5`, not the
claimed `0..7` (`List.range 8`). -/
theorem abf_hierarchical_ids_cex :
    ((getMetadataRecordings [rFile1, rFile2] []).getD []).map
        (fun e => e.intracellular_recordings_table_id) = [0, 1, 2, 3, 4, 5] ∧
    ¬ ((getMetadataRecordings [rFile1, rFile2] []).getD []).map
        (fun e => e.intracellular_recordings_table_id) = List.range 8 := by
  decide

/-- C1 (amended): for every ordered file sequence in which every file has at
least one segment and one electrode, the recordings metadata built by
`AbfNeoDataInterface.get_metadata` assigns `intracellular_recordings_table_id`
values `0..(sum(s_i*e_i)-1)` in emission order with no gaps or repeats
(`List.range (totalEntries rs)`), assigns exactly `n` distinct
`sequential_recordings_table_id` values — one per file, shared by all of that
file's entries (`seqExpected rs 0`, whose value set is `Finset.range n`) —
and assigns exactly `sum(s_i)` distinct `simultaneous_recordings_table_id`
values — one per segment, shared by all electrodes of that segment
(`simExpected rs 0`, whose value set is `Finset.range (totalSegments rs)`).
In the claim's two-file scenario the intracellular ids are `0..5` (not
`0..7`): see the witness. -/
theorem abf_hierarchical_ids (rs : List AbfReader) (ms : List MetaSession)
    (entries : List RecordingEntry)
    (h : getMetadataRecordings rs ms = some entries)
    (hpos : ∀ r ∈ rs, 0 < r.nbSegment0 ∧ 0 < r.nbSignalChannels) :
    entries.map (fun e => e.intracellular_recordings_table_id)
        = List.range (totalEntries rs) ∧
    entries.map (fun e => e.sequential_recordings_table_id) = seqExpected rs 0 ∧
    (entries.map (fun e => e.sequential_recordings_table_id)).toFinset
        = Finset.range rs.length ∧
    entries.map (fun e => e.simultaneous_recordings_table_id) = simExpected rs 0 ∧
    (entries.map (fun e => e.simultaneous_recordings_table_id)).toFinset
        = Finset.range (totalSegments rs) := by
  cases rs with
  | nil => simp [getMetadataRecordings] at h
  | cons first rest =>
    have hent : (readerLoop (abfDateTimeSec first) ms (first :: rest) 0 0 0).1 = entries := by
      simpa [getMetadataRecordings] using h
    obtain ⟨-, -, h3, h4, h5, -⟩ :=
      readerLoop_spec (abfDateTimeSec first) ms (first :: rest) 0 0 0
    rw [hent] at h3 h4 h5
    refine ⟨?_, h4, ?_, h5, ?_⟩
    · rw [h3, List.range_eq_range']
    · rw [h4]
      ext a
      rw [List.mem_toFinset, mem_seqExpected a (first :: rest) 0 hpos, Finset.mem_range]
      omega
    · rw [h5]
      ext a
      rw [List.mem_toFinset,
        mem_simExpected a (first :: rest) 0 (fun r hr => (hpos r hr).2), Finset.mem_range]
      omega

/-- Witness for C1 at the claim's scenario. -/
theorem abf_hierarchical_ids_witness :
    scenarioEntries.map (fun e => e.intracellular_recordings_table_id)
        = List.range (totalEntries [rFile1, rFile2]) ∧
    scenarioEntries.map (fun e => e.sequential_recordings_table_id)
        = seqExpected [rFile1, rFile2] 0 ∧
    (scenarioEntries.map (fun e => e.sequential_recordings_table_id)).toFinset
        = Finset.range (List.length [rFile1, rFile2]) ∧
    scenarioEntries.map (fun e => e.simultaneous_recordings_table_id)
        = simExpected [rFile1, rFile2] 0 ∧
    (scenarioEntries.map (fun e => e.simultaneous_recordings_table_id)).toFinset
        = Finset.range (totalSegments [rFile1, rFile2]) :=
  abf_hierarchical_ids [rFile1, rFile2] [] scenarioEntries (by decide) (by decide)

/-- C2, counterexample: the second file starts 86405 whole seconds after the
first, but the emitted `relative_session_start_time` is 5 — the source reads
`timedelta.seconds`, which drops whole days. -/
theorem abf_relative_time_cex :
    ((getMetadataRecordings [rDay0, rDay1] []).getD []).map
        (fun e => e.relative_session_start_time) = [0, 5] ∧
    abfDateTimeSec rDay1 - abfDateTimeSec rDay0 = 86405 ∧
    ¬ (5 : Int) = 86405 := by
  decide

/-- C2 (amended): every recording entry of file `j` carries
`timedeltaSeconds (start_j - start_0)` — the whole-second wall-clock start of
its file minus that of the first file, reduced modulo 86400 (the `seconds`
component of the normalized Python `timedelta`). This equals the plain
whole-second difference exactly when that difference lies in `[0, 86400)`. -/
theorem abf_relative_time_mod (first : AbfReader) (rest : List AbfReader)
    (ms : List MetaSession) (entries : List RecordingEntry)
    (h : getMetadataRecordings (first :: rest) ms = some entries) :
    entries.map (fun e => e.relative_session_start_time)
      = relExpected (abfDateTimeSec first) (first :: rest) := by
  have hent : (readerLoop (abfDateTimeSec first) ms (first :: rest) 0 0 0).1 = entries := by
    simpa [getMetadataRecordings] using h
  obtain ⟨-, -, -, -, -, h6⟩ :=
    readerLoop_spec (abfDateTimeSec first) ms (first :: rest) 0 0 0
  rw [hent] at h6
  exact h6

/-- Witness for C2 (amended) at the two-file, one-day-apart scenario. -/
theorem abf_relative_time_mod_witness :
    dayEntries.map (fun e => e.relative_session_start_time)
      = relExpected (abfDateTimeSec rDay0) [rDay0, rDay1] :=
  abf_relative_time_mod rDay0 [rDay1] [] dayEntries (by decide)

/-- C3: every entry belonging to the first file of the sequence (the first
`s_1 * e_1` emitted entries) has `relative_session_start_time = 0`: the
first file's wall-clock start minus itself is `0`, and `0 % 86400 = 0`. -/
theorem abf_first_file_relative_zero (first : AbfReader) (rest : List AbfReader)
    (ms : List MetaSession) (entries : List RecordingEntry)
    (h : getMetadataRecordings (first :: rest) ms = some entries) :
    ∀ e ∈ entries.take (first.nbSegment0 * first.nbSignalChannels),
      e.relative_session_start_time = 0 := by
  intro e he
  have hmap := abf_relative_time_mod first rest ms entries h
  have hmem : e.relative_session_start_time
      ∈ (entries.take (first.nbSegment0 * first.nbSignalChannels)).map
        (fun x => x.relative_session_start_time) :=
    List.mem_map_of_mem _ he
  rw [List.map_take, hmap] at hmem
  have hzero : timedeltaSeconds (abfDateTimeSec first - abfDateTimeSec first) = 0 := by
    simp [timedeltaSeconds]
  have hrel : relExpected (abfDateTimeSec first) (first :: rest)
      = List.replicate (first.nbSegment0 * first.nbSignalChannels) (0 : Int)
        ++ relExpected (abfDateTimeSec first) rest := by
    rw [relExpected, hzero]
  rw [hrel] at hmem
  have htake : (List.replicate (first.nbSegment0 * first.nbSignalChannels) (0 : Int)
      ++ relExpected (abfDateTimeSec first) rest).take
        (first.nbSegment0 * first.nbSignalChannels)
      = List.replicate (first.nbSegment0 * first.nbSignalChannels) (0 : Int) := by
    exact List.take_left' (List.length_replicate _ _)
  rw [htake] at hmem
  exact (List.eq_of_mem_replicate hmem)

/-- Witness for C3: in the C2 scenario the single first-file entry carries
relative time 0. -/
theorem abf_first_file_relative_zero_witness :
    getMetadataRecordings [rDay0, rDay1] [] = some dayEntries ∧
    (⟨0, "not described", none, 0, 0, 0⟩ : RecordingEntry).relative_session_start_time = 0 :=
  ⟨by decide,
    abf_first_file_relative_zero rDay0 [rDay1] [] dayEntries (by decide)
      ⟨0, "not described", none, 0, 0, 0⟩ (by decide)⟩

/-- C7: when the command-trace count is inconsistent with the segment count
in the sense of the source's own assert — a nonzero `len(protocol[0])` that
differs from `n_segments` (zero commands instead marks an `i_zero`
experiment, lines 197-198) — `add_icephys_recording` raises the assert's
error before the recording loop runs, and the container is left exactly as
it was: no partial rows are committed. -/
theorem recording_inconsistent_counts (r : NeoReader) (f : NWBFile)
    (h0 : r.protocolTraces.length ≠ 0)
    (h1 : r.protocolTraces.length ≠ get_number_of_segments r) :
    (add_icephys_recording r f).error
        = some (inconsistentMsg (get_number_of_segments r) r.protocolTraces.length) ∧
    (add_icephys_recording r f).nwbfile = f := by
  unfold add_icephys_recording
  rw [if_neg]
  · exact ⟨rfl, rfl⟩
  · rintro (h | h)
    · exact h0 h
    · exact h1 h

/-- Witness for C7: `badReader` declares 2 segments but carries 1 command
trace; the call errors and leaves the container untouched. -/
theorem recording_inconsistent_counts_witness :
    (add_icephys_recording badReader oneElecFile).error
        = some (inconsistentMsg (get_number_of_segments badReader)
            badReader.protocolTraces.length) ∧
    (add_icephys_recording badReader oneElecFile).nwbfile = oneElecFile :=
  recording_inconsistent_counts badReader oneElecFile (by decide) (by decide)

theorem recElecLoop_ok (r : NeoReader) (si : Nat) :
    ∀ (pairs : List (Nat × IcephysElectrode)) (f : NWBFile),
      (recElecLoop r si pairs f).2 = none →
      (recElecLoop r si pairs f).1
        = { f with intracellular_recordings :=
            f.intracellular_recordings ++ pairs.map (recRowAt r si) } := by
  intro pairs
  induction pairs with
  | nil => intro f _; simp [recElecLoop]
  | cons p rest ih =>
    intro f hok
    obtain ⟨ei, el⟩ := p
    cases htr : (r.protocolTraces[si]?).bind (fun seg => seg[ei]?) with
    | none =>
      exfalso
      have hbad : (recElecLoop r si ((ei, el) :: rest) f).2 = some indexErrorMsg := by
        simp [recElecLoop, htr]
      rw [hbad] at hok
      exact Option.noConfusion hok
    | some tr =>
      have hstep : recElecLoop r si ((ei, el) :: rest) f
          = recElecLoop r si rest
            { f with intracellular_recordings := f.intracellular_recordings
                ++ [⟨el.name, mkStimulus r si ei el tr, mkResponse r si ei el⟩] } := by
        simp [recElecLoop, htr]
      rw [hstep] at hok ⊢
      rw [ih _ hok]
      have hrow : recRowAt r si (ei, el)
          = ⟨el.name, mkStimulus r si ei el tr, mkResponse r si ei el⟩ := by
        simp [recRowAt, htr]
      simp [hrow, List.append_assoc]

theorem recSegLoop_ok (r : NeoReader) (elecs : List IcephysElectrode) :
    ∀ (sis : List Nat) (f : NWBFile),
      (recSegLoop r elecs sis f).2 = none →
      (recSegLoop r elecs sis f).1
        = { f with intracellular_recordings := f.intracellular_recordings
            ++ sis.flatMap (fun si => elecs.enum.map (recRowAt r si)) } := by
  intro sis
  induction sis with
  | nil => intro f _; simp [recSegLoop]
  | cons si rest ih =>
    intro f hok
    cases hres : (recElecLoop r si elecs.enum f).2 with
    | some e =>
      exfalso
      have hbad : (recSegLoop r elecs (si :: rest) f).2 = some e := by
        simp [recSegLoop, hres]
      rw [hbad] at hok
      exact Option.noConfusion hok
    | none =>
      have hstep : recSegLoop r elecs (si :: rest) f
          = recSegLoop r elecs rest (recElecLoop r si elecs.enum f).1 := by
        simp [recSegLoop, hres]
      rw [hstep] at hok ⊢
      rw [ih _ hok, recElecLoop_ok r si elecs.enum f hres]
      simp [List.append_assoc]

theorem getElem_flatMap_fixed_len {β : Type} (F : Nat → List β) (w : Nat)
    (hw : ∀ k, (F k).length = w) :
    ∀ (n s si ei : Nat), si < n → ei < w →
      ((List.range' s n).flatMap F)[si * w + ei]? = (F (s + si))[ei]? := by
  intro n
  induction n with
  | zero => intro s si ei hsi _; exact absurd hsi (by omega)
  | succ n ih =>
    intro s si ei hsi hei
    rw [List.range'_succ, List.flatMap_cons]
    cases si with
    | zero =>
      rw [Nat.zero_mul, Nat.zero_add, Nat.add_zero]
      exact List.getElem?_append_left (by rw [hw s]; exact hei)
    | succ si' =>
      have hmul : (si' + 1) * w = si' * w + w := Nat.succ_mul si' w
      have hge : w ≤ (si' + 1) * w + ei := by omega
      rw [List.getElem?_append_right (by rw [hw s]; exact hge)]
      have harith : (si' + 1) * w + ei - (F s).length = si' * w + ei := by
        rw [hw s]; omega
      rw [harith, ih (s + 1) si' ei (by omega) hei]
      have hsum : s + 1 + si' = s + (si' + 1) := by omega
      rw [hsum]

/-- C10: for every reader and every in-range segment/electrode pair, on the
success path of `add_icephys_recording` the appended row's stimulus series
carries the hard-coded `starting_time = 123.6` (line 226), independent of the
reader's per-segment signal start time, while its paired response series
carries `get_signal_t_start(0, si)` (line 215). Rows are appended in
segment-major order after the pre-existing rows. -/
theorem recording_series_start_times (r : NeoReader) (f : NWBFile) (si ei : Nat)
    (hok : (add_icephys_recording r f).error = none)
    (hsi : si < get_number_of_segments r)
    (hei : ei < f.icephys_electrodes.length) :
    ((add_icephys_recording r f).nwbfile.intracellular_recordings[
        f.intracellular_recordings.length
          + (si * f.icephys_electrodes.length + ei)]?).map
        (fun row => (row.stimulus.starting_time, row.response.starting_time))
      = some ((123.6 : ℚ), r.signalTStart si) := by
  simp only [add_icephys_recording] at hok ⊢
  by_cases hc : r.protocolTraces.length = 0
      ∨ r.protocolTraces.length = get_number_of_segments r
  · rw [if_pos hc] at hok ⊢
    rw [recSegLoop_ok r f.icephys_electrodes (List.range (get_number_of_segments r)) f hok]
    have hproj : ∀ L, ({ f with intracellular_recordings := L } : NWBFile).intracellular_recordings = L := fun _ => rfl
    rw [hproj]
    rw [List.getElem?_append_right (by omega)]
    have hidx : f.intracellular_recordings.length
        + (si * f.icephys_electrodes.length + ei)
        - f.intracellular_recordings.length
        = si * f.icephys_electrodes.length + ei := by omega
    rw [hidx, List.range_eq_range',
      getElem_flatMap_fixed_len (fun k => f.icephys_electrodes.enum.map (recRowAt r k))
        f.icephys_electrodes.length (fun k => by simp)
        (get_number_of_segments r) 0 si ei hsi hei]
    rw [Nat.zero_add, List.getElem?_map]
    have henum : (f.icephys_electrodes.enum)[ei]?
        = (f.icephys_electrodes[ei]?).map (fun a => (ei, a)) := by
      simp [List.enum_eq_enumFrom, List.getElem?_enumFrom]
    rw [henum, List.getElem?_eq_getElem hei]
    simp [recRowAt, mkStimulus, mkResponse]
  · rw [if_neg hc] at hok
    exact Option.noConfusion hok

/-- Witness for C10: the single appended row has stimulus starting time
123.6 and response starting time 7 (= the reader's signal start). -/
theorem recording_series_start_times_witness :
    ((add_icephys_recording c10Reader oneElecFile).nwbfile.intracellular_recordings[
        oneElecFile.intracellular_recordings.length
          + (0 * oneElecFile.icephys_electrodes.length + 0)]?).map
        (fun row => (row.stimulus.starting_time, row.response.starting_time))
      = some ((123.6 : ℚ), c10Reader.signalTStart 0) :=
  recording_series_start_times c10Reader oneElecFile 0 0 rfl (by decide) (by decide)

theorem addDeviceStep_devices_prefix (f : NWBFile) (d : DeviceDescr) :
    ∃ t, (addDeviceStep f d).devices = f.devices ++ t := by
  unfold addDeviceStep
  by_cases h : d.name ∈ deviceNames f
  · exact ⟨[], by rw [if_pos h]; simp⟩
  · exact ⟨[⟨d.name, d.description⟩], by rw [if_neg h]⟩

theorem devfold_devices_prefix (descrs : List DeviceDescr) :
    ∀ f, ∃ t, (descrs.foldl addDeviceStep f).devices = f.devices ++ t := by
  induction descrs with
  | nil => intro f; exact ⟨[], by simp⟩
  | cons d ds ih =>
    intro f
    obtain ⟨t2, h2⟩ := ih (addDeviceStep f d)
    obtain ⟨t1, h1⟩ := addDeviceStep_devices_prefix f d
    exact ⟨t1 ++ t2, by rw [List.foldl_cons, h2, h1, List.append_assoc]⟩

theorem add_devices_devices_prefix (f : NWBFile) (dt : String) (md : Option Metadata) :
    ∃ t, (add_devices f dt md).devices = f.devices ++ t := by
  unfold add_devices
  exact devfold_devices_prefix _ f

theorem addDeviceStep_elecs (f : NWBFile) (d : DeviceDescr) :
    (addDeviceStep f d).icephys_electrodes = f.icephys_electrodes := by
  unfold addDeviceStep
  split <;> rfl

theorem addDeviceStep_recs (f : NWBFile) (d : DeviceDescr) :
    (addDeviceStep f d).intracellular_recordings = f.intracellular_recordings := by
  unfold addDeviceStep
  split <;> rfl

theorem devfold_elecs (descrs : List DeviceDescr) :
    ∀ f, (descrs.foldl addDeviceStep f).icephys_electrodes = f.icephys_electrodes := by
  induction descrs with
  | nil => intro f; rfl
  | cons d ds ih => intro f; rw [List.foldl_cons, ih, addDeviceStep_elecs]

theorem devfold_recs (descrs : List DeviceDescr) :
    ∀ f, (descrs.foldl addDeviceStep f).intracellular_recordings
      = f.intracellular_recordings := by
  induction descrs with
  | nil => intro f; rfl
  | cons d ds ih => intro f; rw [List.foldl_cons, ih, addDeviceStep_recs]

theorem add_devices_elecs (f : NWBFile) (dt : String) (md : Option Metadata) :
    (add_devices f dt md).icephys_electrodes = f.icephys_electrodes := by
  unfold add_devices
  exact devfold_elecs _ f

theorem add_devices_recs (f : NWBFile) (dt : String) (md : Option Metadata) :
    (add_devices f dt md).intracellular_recordings = f.intracellular_recordings := by
  unfold add_devices
  exact devfold_recs _ f

theorem add_devices_of_empty_ne_nil (f : NWBFile) (dt : String) (md : Option Metadata)
    (h : f.devices = []) : (add_devices f dt md).devices ≠ [] := by
  have hcons : ∀ (d : DeviceDescr) (ds : List DeviceDescr),
      (((d :: ds).foldl addDeviceStep f)).devices ≠ [] := by
    intro d ds
    obtain ⟨t, ht⟩ := devfold_devices_prefix ds (addDeviceStep f d)
    rw [List.foldl_cons, ht]
    have hstep : (addDeviceStep f d).devices = [⟨d.name, d.description⟩] := by
      unfold addDeviceStep
      rw [if_neg (by rw [deviceNames, h]; exact List.not_mem_nil _)]
      rw [show ({ f with devices := f.devices ++ [⟨d.name, d.description⟩] } :
        NWBFile).devices = f.devices ++ [⟨d.name, d.description⟩] from rfl, h]
      rfl
    rw [hstep]
    simp
  unfold add_devices
  by_cases hn : deviceDescrs dt md = []
  · simp only [hn, if_pos]
    exact hcons _ _
  · simp only [if_neg hn]
    cases hnd : deviceDescrs dt md with
    | nil => exact absurd hnd hn
    | cons d ds => exact hcons d ds

theorem repairStage_of_ne_nil (f : NWBFile) (md : Option Metadata) (h : f.devices ≠ []) :
    repairStage f md = (f, []) := by
  unfold repairStage
  rw [if_neg h]

theorem repairStage_devices_ne_nil (f : NWBFile) (md : Option Metadata) :
    (repairStage f md).1.devices ≠ [] := by
  unfold repairStage
  by_cases h : f.devices = []
  · rw [if_pos h]
    exact add_devices_of_empty_ne_nil f "Ecephys" md h
  · rw [if_neg h]
    exact h

theorem repairStage_elecs (f : NWBFile) (md : Option Metadata) :
    (repairStage f md).1.icephys_electrodes = f.icephys_electrodes := by
  unfold repairStage
  by_cases h : f.devices = []
  · rw [if_pos h]
    exact add_devices_elecs f "Ecephys" md
  · rw [if_neg h]

theorem repairStage_recs (f : NWBFile) (md : Option Metadata) :
    (repairStage f md).1.intracellular_recordings = f.intracellular_recordings := by
  unfold repairStage
  by_cases h : f.devices = []
  · rw [if_pos h]
    exact add_devices_recs f "Ecephys" md
  · rw [if_neg h]

theorem repairStage_devices_prefix (f : NWBFile) (md : Option Metadata) :
    ∃ t, (repairStage f md).1.devices = f.devices ++ t := by
  unfold repairStage
  by_cases h : f.devices = []
  · rw [if_pos h]
    exact ⟨(add_devices f "Ecephys" md).devices, by rw [h]; rfl⟩
  · rw [if_neg h]
    exact ⟨[], by simp⟩

theorem elec_call_none_branch (r : NeoReader) (f : NWBFile) (md : Option Metadata)
    (hdef : defaultElecList (get_number_of_electrodes r) (repairStage f md).1 = none) :
    add_icephys_electrode r f md
      = ⟨(repairStage f md).1, (repairStage f md).2, some indexErrorMsg⟩ := by
  simp only [add_icephys_electrode, hdef]

theorem elec_call_assert_branch (r : NeoReader) (f : NWBFile) (md : Option Metadata)
    (defaults : List DefaultElec)
    (hdef : defaultElecList (get_number_of_electrodes r) (repairStage f md).1
      = some defaults)
    (hall : (effectiveItems defaults md).all isMapItem = false) :
    add_icephys_electrode r f md
      = ⟨(repairStage f md).1, (repairStage f md).2, some electrodesAssertMsg⟩ := by
  simp only [add_icephys_electrode, hdef, hall]
  rfl

theorem elec_call_empty_branch (r : NeoReader) (f : NWBFile) (md : Option Metadata)
    (defaults : List DefaultElec)
    (hdef : defaultElecList (get_number_of_electrodes r) (repairStage f md).1
      = some defaults)
    (hall : (effectiveItems defaults md).all isMapItem = true)
    (hfm : (effectiveItems defaults md).filterMap toDescr = []) :
    add_icephys_electrode r f md
      = ⟨(repairStage f md).1, (repairStage f md).2, none⟩ := by
  simp only [add_icephys_electrode, hdef, hall, hfm]
  rfl

theorem elec_call_headnone_branch (r : NeoReader) (f : NWBFile) (md : Option Metadata)
    (defaults : List DefaultElec) (dsc : ElecDescr) (rest : List ElecDescr)
    (hdef : defaultElecList (get_number_of_electrodes r) (repairStage f md).1
      = some defaults)
    (hall : (effectiveItems defaults md).all isMapItem = true)
    (hfm : (effectiveItems defaults md).filterMap toDescr = dsc :: rest)
    (hd0 : defaults.head? = none) :
    add_icephys_electrode r f md
      = ⟨(repairStage f md).1, (repairStage f md).2, some indexErrorMsg⟩ := by
  simp only [add_icephys_electrode, hdef, hall, hfm, hd0]
  rfl

theorem elec_call_loop_branch (r : NeoReader) (f : NWBFile) (md : Option Metadata)
    (defaults : List DefaultElec) (dsc : ElecDescr) (rest : List ElecDescr)
    (d0 : DefaultElec)
    (hdef : defaultElecList (get_number_of_electrodes r) (repairStage f md).1
      = some defaults)
    (hall : (effectiveItems defaults md).all isMapItem = true)
    (hfm : (effectiveItems defaults md).filterMap toDescr = dsc :: rest)
    (hd0 : defaults.head? = some d0) :
    add_icephys_electrode r f md
      = ⟨((dsc :: rest).foldl (createElectrodeStep d0) (repairStage f md)).1,
         ((dsc :: rest).foldl (createElectrodeStep d0) (repairStage f md)).2, none⟩ := by
  simp only [add_icephys_electrode, hdef, hall, hfm, hd0, if_true]

theorem add_devices_single_mem (f : NWBFile) (dn : String) (h : dn ∉ deviceNames f) :
    (⟨dn, none⟩ : Device)
      ∈ (add_devices f "Ecephys" (some ⟨none, some ⟨some [⟨dn, none⟩], none⟩⟩)).devices := by
  have hdd : deviceDescrs "Ecephys" (some ⟨none, some ⟨some [⟨dn, none⟩], none⟩⟩)
      = [⟨dn, none⟩] := rfl
  simp only [add_devices, hdd]
  rw [if_neg (by simp)]
  simp only [List.foldl_cons, List.foldl_nil]
  unfold addDeviceStep
  rw [if_neg h]
  simp

theorem step_devices_prefix (d0 : DefaultElec) (st : NWBFile × List String)
    (elec : ElecDescr) :
    ∃ t, (createElectrodeStep d0 st elec).1.devices = st.1.devices ++ t := by
  simp only [createElectrodeStep]
  by_cases h1 : (elec.name.getD d0.name) ∈ electrodeNames st.1
  · rw [if_pos h1]
    exact ⟨[], by simp⟩
  · rw [if_neg h1]
    by_cases h2 : (elec.device_name.getD d0.device_name) ∈ deviceNames st.1
    · rw [if_pos h2]
      exact ⟨[], by simp⟩
    · rw [if_neg h2]
      obtain ⟨t, ht⟩ := add_devices_devices_prefix st.1 "Ecephys"
        (some ⟨none, some ⟨some [⟨elec.device_name.getD d0.device_name, none⟩], none⟩⟩)
      exact ⟨t, ht⟩

theorem step_elecs_append (d0 : DefaultElec) (st : NWBFile × List String)
    (elec : ElecDescr) :
    ∃ t, (createElectrodeStep d0 st elec).1.icephys_electrodes
      = st.1.icephys_electrodes ++ t := by
  simp only [createElectrodeStep]
  by_cases h1 : (elec.name.getD d0.name) ∈ electrodeNames st.1
  · rw [if_pos h1]
    exact ⟨[], by simp⟩
  · rw [if_neg h1]
    by_cases h2 : (elec.device_name.getD d0.device_name) ∈ deviceNames st.1
    · rw [if_pos h2]
      exact ⟨[⟨elec.name.getD d0.name, elec.description.getD d0.description,
        elec.device_name.getD d0.device_name⟩], rfl⟩
    · rw [if_neg h2]
      refine ⟨[⟨elec.name.getD d0.name, elec.description.getD d0.description,
        elec.device_name.getD d0.device_name⟩], ?_⟩
      show (add_devices st.1 "Ecephys"
          (some ⟨none, some ⟨some [⟨elec.device_name.getD d0.device_name, none⟩],
            none⟩⟩)).icephys_electrodes ++ _ = _
      rw [add_devices_elecs]

theorem step_recs (d0 : DefaultElec) (st : NWBFile × List String) (elec : ElecDescr) :
    (createElectrodeStep d0 st elec).1.intracellular_recordings
      = st.1.intracellular_recordings := by
  simp only [createElectrodeStep]
  by_cases h1 : (elec.name.getD d0.name) ∈ electrodeNames st.1
  · rw [if_pos h1]
  · rw [if_neg h1]
    by_cases h2 : (elec.device_name.getD d0.device_name) ∈ deviceNames st.1
    · rw [if_pos h2]
    · rw [if_neg h2]
      show (add_devices st.1 "Ecephys"
          (some ⟨none, some ⟨some [⟨elec.device_name.getD d0.device_name, none⟩],
            none⟩⟩)).intracellular_recordings = _
      rw [add_devices_recs]

theorem step_warnings_prefix (d0 : DefaultElec) (st : NWBFile × List String)
    (elec : ElecDescr) :
    ∃ t, (createElectrodeStep d0 st elec).2 = st.2 ++ t := by
  simp only [createElectrodeStep]
  by_cases h1 : (elec.name.getD d0.name) ∈ electrodeNames st.1
  · rw [if_pos h1]
    exact ⟨[], by simp⟩
  · rw [if_neg h1]
    by_cases h2 : (elec.device_name.getD d0.device_name) ∈ deviceNames st.1
    · rw [if_pos h2]
      exact ⟨[], by simp⟩
    · rw [if_neg h2]
      exact ⟨[autoDeviceWarning (elec.device_name.getD d0.device_name)], rfl⟩

theorem fold_devices_prefix (d0 : DefaultElec) (l : List ElecDescr) :
    ∀ st, ∃ t, ((l.foldl (createElectrodeStep d0) st)).1.devices = st.1.devices ++ t := by
  induction l with
  | nil => intro st; exact ⟨[], by simp⟩
  | cons e l ih =>
    intro st
    obtain ⟨t2, h2⟩ := ih (createElectrodeStep d0 st e)
    obtain ⟨t1, h1⟩ := step_devices_prefix d0 st e
    exact ⟨t1 ++ t2, by rw [List.foldl_cons, h2, h1, List.append_assoc]⟩

theorem fold_elecs_append (d0 : DefaultElec) (l : List ElecDescr) :
    ∀ st, ∃ t, ((l.foldl (createElectrodeStep d0) st)).1.icephys_electrodes
      = st.1.icephys_electrodes ++ t := by
  induction l with
  | nil => intro st; exact ⟨[], by simp⟩
  | cons e l ih =>
    intro st
    obtain ⟨t2, h2⟩ := ih (createElectrodeStep d0 st e)
    obtain ⟨t1, h1⟩ := step_elecs_append d0 st e
    exact ⟨t1 ++ t2, by rw [List.foldl_cons, h2, h1, List.append_assoc]⟩

theorem fold_recs (d0 : DefaultElec) (l : List ElecDescr) :
    ∀ st, ((l.foldl (createElectrodeStep d0) st)).1.intracellular_recordings
      = st.1.intracellular_recordings := by
  induction l with
  | nil => intro st; rfl
  | cons e l ih =>
    intro st
    rw [List.foldl_cons, ih, step_recs]

theorem fold_warnings_prefix (d0 : DefaultElec) (l : List ElecDescr) :
    ∀ st, ∃ t, ((l.foldl (createElectrodeStep d0) st)).2 = st.2 ++ t := by
  induction l with
  | nil => intro st; exact ⟨[], by simp⟩
  | cons e l ih =>
    intro st
    obtain ⟨t2, h2⟩ := ih (createElectrodeStep d0 st e)
    obtain ⟨t1, h1⟩ := step_warnings_prefix d0 st e
    exact ⟨t1 ++ t2, by rw [List.foldl_cons, h2, h1, List.append_assoc]⟩

theorem elec_call_extends (r : NeoReader) (f : NWBFile) (md : Option Metadata) :
    (∃ tD, (add_icephys_electrode r f md).nwbfile.devices
        = (repairStage f md).1.devices ++ tD) ∧
    (∃ tE, (add_icephys_electrode r f md).nwbfile.icephys_electrodes
        = (repairStage f md).1.icephys_electrodes ++ tE) ∧
    ((add_icephys_electrode r f md).nwbfile.intracellular_recordings
        = (repairStage f md).1.intracellular_recordings) ∧
    (∃ tW, (add_icephys_electrode r f md).warnings = (repairStage f md).2 ++ tW) := by
  cases hdef : defaultElecList (get_number_of_electrodes r) (repairStage f md).1 with
  | none =>
    rw [elec_call_none_branch r f md hdef]
    exact ⟨⟨[], by simp⟩, ⟨[], by simp⟩, rfl, ⟨[], by simp⟩⟩
  | some defaults =>
    cases hall : (effectiveItems defaults md).all isMapItem with
    | false =>
      rw [elec_call_assert_branch r f md defaults hdef hall]
      exact ⟨⟨[], by simp⟩, ⟨[], by simp⟩, rfl, ⟨[], by simp⟩⟩
    | true =>
      cases hfm : (effectiveItems defaults md).filterMap toDescr with
      | nil =>
        rw [elec_call_empty_branch r f md defaults hdef hall hfm]
        exact ⟨⟨[], by simp⟩, ⟨[], by simp⟩, rfl, ⟨[], by simp⟩⟩
      | cons dsc rest =>
        cases hd0 : defaults.head? with
        | none =>
          rw [elec_call_headnone_branch r f md defaults dsc rest hdef hall hfm hd0]
          exact ⟨⟨[], by simp⟩, ⟨[], by simp⟩, rfl, ⟨[], by simp⟩⟩
        | some d0 =>
          rw [elec_call_loop_branch r f md defaults dsc rest d0 hdef hall hfm hd0]
          obtain ⟨tD, hD⟩ := fold_devices_prefix d0 (dsc :: rest) (repairStage f md)
          obtain ⟨tE, hE⟩ := fold_elecs_append d0 (dsc :: rest) (repairStage f md)
          obtain ⟨tW, hW⟩ := fold_warnings_prefix d0 (dsc :: rest) (repairStage f md)
          exact ⟨⟨tD, hD⟩, ⟨tE, hE⟩, fold_recs d0 (dsc :: rest) (repairStage f md), ⟨tW, hW⟩⟩

/-- C4: for a call on a container with zero devices and a metadata override
naming no device, a default device `name="Device"`,
`description="no description"` is created by the zero-device repair and the
repair warning is raised, regardless of how the rest of the call proceeds. -/
theorem default_device_synthesized (r : NeoReader) (f : NWBFile) (md : Option Metadata)
    (h0 : f.devices = [])
    (_hIce : deviceDescrs "Icephys" md = [])
    (hEce : deviceDescrs "Ecephys" md = []) :
    (⟨"Device", some "no description"⟩ : Device)
        ∈ (add_icephys_electrode r f md).nwbfile.devices ∧
    noDevicesWarning ∈ (add_icephys_electrode r f md).warnings := by
  obtain ⟨⟨tD, hD⟩, -, -, ⟨tW, hW⟩⟩ := elec_call_extends r f md
  have hrep : repairStage f md = (add_devices f "Ecephys" md, [noDevicesWarning]) := by
    unfold repairStage
    rw [if_pos h0]
  have hadd : (add_devices f "Ecephys" md).devices
      = [⟨"Device", some "no description"⟩] := by
    simp only [add_devices, hEce, if_true]
    simp only [List.foldl_cons, List.foldl_nil]
    unfold addDeviceStep
    rw [if_neg (by simp [deviceNames, h0])]
    show f.devices ++ _ = _
    rw [h0]
    rfl
  constructor
  · rw [hD, hrep]
    apply List.mem_append_left
    show _ ∈ (add_devices f "Ecephys" md).devices
    rw [hadd]
    exact List.mem_singleton_self _
  · rw [hW, hrep]
    apply List.mem_append_left
    exact List.mem_singleton_self _

/-- Witness for C4: an empty container and no metadata. -/
theorem default_device_synthesized_witness :
    (⟨"Device", some "no description"⟩ : Device)
        ∈ (add_icephys_electrode c5Reader c8File none).nwbfile.devices ∧
    noDevicesWarning ∈ (add_icephys_electrode c5Reader c8File none).warnings :=
  default_device_synthesized c5Reader c8File none (by decide) (by decide) (by decide)

/-- C5, counterexample: the descriptor names the electrode `e1`, which is
already registered, so the whole descriptor is skipped (line 164): its
unknown `device_name` `newdev` is neither created nor warned about, and the
call succeeds — falsifying the claim that every descriptor with an absent
`device_name` triggers auto-creation and a warning. -/
theorem auto_device_created_cex :
    ("newdev" ∉ deviceNames c5File) ∧
    (add_icephys_electrode c5Reader c5File (some c5Md)).error = none ∧
    ("newdev" ∉ deviceNames (add_icephys_electrode c5Reader c5File (some c5Md)).nwbfile) ∧
    (add_icephys_electrode c5Reader c5File (some c5Md)).warnings = [] := by
  decide

/-- C5 (amended): for every electrode descriptor the creation loop actually
processes — its resolved name is not yet a registered electrode (descriptors
whose resolved name already exists are skipped entirely) — whose resolved
`device_name` is absent from the container's devices at that moment, the
device is auto-created with only its name populated (`description = none`),
a warning noting the automatic link is emitted, and the step is total: it
cannot fail. -/
theorem auto_device_created (d0 : DefaultElec) (st : NWBFile × List String)
    (elec : ElecDescr)
    (hname : elec.name.getD d0.name ∉ electrodeNames st.1)
    (hdev : elec.device_name.getD d0.device_name ∉ deviceNames st.1) :
    (⟨elec.device_name.getD d0.device_name, none⟩ : Device)
        ∈ (createElectrodeStep d0 st elec).1.devices ∧
    autoDeviceWarning (elec.device_name.getD d0.device_name)
        ∈ (createElectrodeStep d0 st elec).2 := by
  simp only [createElectrodeStep]
  rw [if_neg hname, if_neg hdev]
  constructor
  · show _ ∈ (add_devices st.1 "Ecephys"
      (some ⟨none, some ⟨some [⟨elec.device_name.getD d0.device_name, none⟩],
        none⟩⟩)).devices
    exact add_devices_single_mem st.1 _ hdev
  · show _ ∈ st.2 ++ [autoDeviceWarning (elec.device_name.getD d0.device_name)]
    exact List.mem_append_right _ (List.mem_singleton_self _)

/-- Witness for C5 (amended): a fresh electrode name `e9` referencing the
absent device `newdev`. -/
theorem auto_device_created_witness :
    (⟨"newdev", none⟩ : Device) ∈ (createElectrodeStep c5d0 c5St c5Elec).1.devices ∧
    autoDeviceWarning "newdev" ∈ (createElectrodeStep c5d0 c5St c5Elec).2 :=
  auto_device_created c5d0 c5St c5Elec (by decide) (by decide)

/-- C8, counterexample: on a container with zero devices and a malformed
`Electrodes` override (`[notMap]`), the call does fail — but only after the
zero-device repair has already added a default device, so the container is
not left unmutated. -/
theorem malformed_rejected_cex :
    c8File.devices = [] ∧
    (add_icephys_electrode c8Reader c8File (some c8Md)).error.isSome = true ∧
    ¬ (add_icephys_electrode c8Reader c8File (some c8Md)).nwbfile.devices = [] := by
  decide

/-- C8 (amended): a caller-supplied `Electrodes` override that is not a list
of mappings makes `add_icephys_electrode` fail with a reported error before
any electrode descriptor is resolved or any electrode created: the electrode
table and the recordings are exactly as before, and when the container
already had at least one device its devices are untouched too. (When it had
zero devices, the zero-device repair has already synthesized a default
device before the malformed list is detected — see the counterexample.) -/
theorem malformed_rejected (r : NeoReader) (f : NWBFile) (md : Option Metadata)
    (l : List ElecItem)
    (hl : (sectionOf "Icephys" md).bind (fun sec => sec.Electrodes) = some l)
    (hbad : l.all isMapItem = false) :
    (add_icephys_electrode r f md).error.isSome = true ∧
    (add_icephys_electrode r f md).nwbfile.icephys_electrodes = f.icephys_electrodes ∧
    (add_icephys_electrode r f md).nwbfile.intracellular_recordings
        = f.intracellular_recordings ∧
    (f.devices ≠ [] → (add_icephys_electrode r f md).nwbfile.devices = f.devices) := by
  have hlne : l ≠ [] := by
    intro hnil
    subst hnil
    simp at hbad
  have hitems : ∀ defaults : List DefaultElec, effectiveItems defaults md = l := by
    intro defaults
    simp only [effectiveItems, hl]
    rw [if_neg hlne]
  cases hdef : defaultElecList (get_number_of_electrodes r) (repairStage f md).1 with
  | none =>
    rw [elec_call_none_branch r f md hdef]
    refine ⟨rfl, repairStage_elecs f md, repairStage_recs f md, ?_⟩
    intro hne
    rw [repairStage_of_ne_nil f md hne]
  | some defaults =>
    have hall : (effectiveItems defaults md).all isMapItem = false := by
      rw [hitems]
      exact hbad
    rw [elec_call_assert_branch r f md defaults hdef hall]
    refine ⟨rfl, repairStage_elecs f md, repairStage_recs f md, ?_⟩
    intro hne
    rw [repairStage_of_ne_nil f md hne]

/-- Witness for C8 (amended): malformed override against a container that
already has a device — the call errors and the container is untouched. -/
theorem malformed_rejected_witness :
    (add_icephys_electrode c8Reader c8bFile (some c8Md)).error.isSome = true ∧
    (add_icephys_electrode c8Reader c8bFile (some c8Md)).nwbfile.icephys_electrodes
        = c8bFile.icephys_electrodes ∧
    (add_icephys_electrode c8Reader c8bFile (some c8Md)).nwbfile.intracellular_recordings
        = c8bFile.intracellular_recordings ∧
    (c8bFile.devices ≠ [] →
      (add_icephys_electrode c8Reader c8bFile (some c8Md)).nwbfile.devices
        = c8bFile.devices) :=
  malformed_rejected c8Reader c8bFile (some c8Md) [ElecItem.notMap] (by decide) (by decide)

theorem step_devLinked (d0 : DefaultElec) (st : NWBFile × List String) (elec : ElecDescr)
    (E0 : List IcephysElectrode) (h : devLinked st.1 E0) :
    devLinked (createElectrodeStep d0 st elec).1 E0 := by
  simp only [createElectrodeStep]
  by_cases h1 : (elec.name.getD d0.name) ∈ electrodeNames st.1
  · rw [if_pos h1]
    exact h
  · rw [if_neg h1]
    by_cases h2 : (elec.device_name.getD d0.device_name) ∈ deviceNames st.1
    · rw [if_pos h2]
      intro e he
      rcases List.mem_append.mp he with hin | hsing
      · rcases h e hin with hl | hr
        · exact Or.inl hl
        · exact Or.inr hr
      · rw [List.mem_singleton] at hsing
        subst hsing
        exact Or.inr h2
    · rw [if_neg h2]
      intro e he
      rcases List.mem_append.mp he with hin | hsing
      · have hin2 : e ∈ st.1.icephys_electrodes := by
          rw [show (add_devices st.1 "Ecephys"
              (some ⟨none, some ⟨some [⟨elec.device_name.getD d0.device_name, none⟩],
                none⟩⟩)).icephys_electrodes = st.1.icephys_electrodes
            from add_devices_elecs _ _ _] at hin
          exact hin
        rcases h e hin2 with hl | hr
        · exact Or.inl hl
        · right
          obtain ⟨t, ht⟩ := add_devices_devices_prefix st.1 "Ecephys"
            (some ⟨none, some ⟨some [⟨elec.device_name.getD d0.device_name, none⟩], none⟩⟩)
          show e.deviceName ∈ deviceNames (add_devices st.1 "Ecephys"
            (some ⟨none, some ⟨some [⟨elec.device_name.getD d0.device_name, none⟩], none⟩⟩))
          rw [deviceNames, ht, List.map_append]
          exact List.mem_append_left _ hr
      · rw [List.mem_singleton] at hsing
        subst hsing
        right
        show (elec.device_name.getD d0.device_name) ∈ deviceNames (add_devices st.1 "Ecephys"
          (some ⟨none, some ⟨some [⟨elec.device_name.getD d0.device_name, none⟩], none⟩⟩))
        exact List.mem_map_of_mem (fun d => d.name) (add_devices_single_mem st.1 _ h2)

theorem fold_devLinked (d0 : DefaultElec) (l : List ElecDescr) :
    ∀ (st : NWBFile × List String) (E0 : List IcephysElectrode),
      devLinked st.1 E0 → devLinked ((l.foldl (createElectrodeStep d0) st)).1 E0 := by
  induction l with
  | nil => intro st E0 h; exact h
  | cons e l ih =>
    intro st E0 h
    rw [List.foldl_cons]
    exact ih _ E0 (step_devLinked d0 st e E0 h)

theorem elec_call_devLinked (r : NeoReader) (f : NWBFile) (md : Option Metadata) :
    devLinked (add_icephys_electrode r f md).nwbfile f.icephys_electrodes := by
  have hbase : devLinked (repairStage f md).1 f.icephys_electrodes := by
    intro e he
    rw [repairStage_elecs] at he
    exact Or.inl he
  cases hdef : defaultElecList (get_number_of_electrodes r) (repairStage f md).1 with
  | none =>
    rw [elec_call_none_branch r f md hdef]
    exact hbase
  | some defaults =>
    cases hall : (effectiveItems defaults md).all isMapItem with
    | false =>
      rw [elec_call_assert_branch r f md defaults hdef hall]
      exact hbase
    | true =>
      cases hfm : (effectiveItems defaults md).filterMap toDescr with
      | nil =>
        rw [elec_call_empty_branch r f md defaults hdef hall hfm]
        exact hbase
      | cons dsc rest =>
        cases hd0 : defaults.head? with
        | none =>
          rw [elec_call_headnone_branch r f md defaults dsc rest hdef hall hfm hd0]
          exact hbase
        | some d0 =>
          rw [elec_call_loop_branch r f md defaults dsc rest d0 hdef hall hfm hd0]
          exact fold_devLinked d0 (dsc :: rest) (repairStage f md) _ hbase

theorem elec_call_devices_ne_nil (r : NeoReader) (f : NWBFile) (md : Option Metadata) :
    (add_icephys_electrode r f md).nwbfile.devices ≠ [] := by
  obtain ⟨⟨tD, hD⟩, -, -, -⟩ := elec_call_extends r f md
  rw [hD]
  intro hc
  exact repairStage_devices_ne_nil f md (List.append_eq_nil.mp hc).1

/-- C9: every electrode the call creates is linked to a device present in the
container (pre-existing electrodes aside), and the device collection is
nonempty after the call — in fact the embedding shows both hold whether or
not the call raised, so in particular whenever it returns without raising. -/
theorem electrode_device_integrity (r : NeoReader) (f : NWBFile) (md : Option Metadata) :
    (add_icephys_electrode r f md).nwbfile.devices ≠ [] ∧
    ∀ e ∈ (add_icephys_electrode r f md).nwbfile.icephys_electrodes,
      e ∈ f.icephys_electrodes
        ∨ e.deviceName ∈ deviceNames (add_icephys_electrode r f md).nwbfile :=
  ⟨elec_call_devices_ne_nil r f md, elec_call_devLinked r f md⟩

theorem nodup_append_singleton {α : Type} {l : List α} {a : α}
    (h : l.Nodup) (ha : a ∉ l) : (l ++ [a]).Nodup := by
  rw [List.nodup_append]
  refine ⟨h, List.nodup_singleton a, ?_⟩
  intro x hx hxa
  rw [List.mem_singleton] at hxa
  subst hxa
  exact ha hx

theorem addDeviceStep_names_nodup (f : NWBFile) (d : DeviceDescr)
    (h : (deviceNames f).Nodup) : (deviceNames (addDeviceStep f d)).Nodup := by
  unfold addDeviceStep
  by_cases hm : d.name ∈ deviceNames f
  · rw [if_pos hm]
    exact h
  · rw [if_neg hm]
    show (List.map (fun dd => dd.name) (f.devices ++ [⟨d.name, d.description⟩])).Nodup
    rw [List.map_append]
    exact nodup_append_singleton h hm

theorem devfold_names_nodup (descrs : List DeviceDescr) :
    ∀ f, (deviceNames f).Nodup → (deviceNames (descrs.foldl addDeviceStep f)).Nodup := by
  induction descrs with
  | nil => intro f h; exact h
  | cons d ds ih =>
    intro f h
    rw [List.foldl_cons]
    exact ih _ (addDeviceStep_names_nodup f d h)

theorem add_devices_names_nodup (f : NWBFile) (dt : String) (md : Option Metadata)
    (h : (deviceNames f).Nodup) : (deviceNames (add_devices f dt md)).Nodup := by
  unfold add_devices
  exact devfold_names_nodup _ f h

theorem repairStage_devNames_nodup (f : NWBFile) (md : Option Metadata)
    (h : (deviceNames f).Nodup) : (deviceNames (repairStage f md).1).Nodup := by
  unfold repairStage
  by_cases h0 : f.devices = []
  · rw [if_pos h0]
    exact add_devices_names_nodup f "Ecephys" md h
  · rw [if_neg h0]
    exact h

theorem repairStage_elecNames (f : NWBFile) (md : Option Metadata) :
    electrodeNames (repairStage f md).1 = electrodeNames f := by
  unfold electrodeNames
  rw [repairStage_elecs]

theorem step_devNames_nodup (d0 : DefaultElec) (st : NWBFile × List String)
    (elec : ElecDescr) (h : (deviceNames st.1).Nodup) :
    (deviceNames (createElectrodeStep d0 st elec).1).Nodup := by
  simp only [createElectrodeStep]
  by_cases h1 : (elec.name.getD d0.name) ∈ electrodeNames st.1
  · rw [if_pos h1]
    exact h
  · rw [if_neg h1]
    by_cases h2 : (elec.device_name.getD d0.device_name) ∈ deviceNames st.1
    · rw [if_pos h2]
      exact h
    · rw [if_neg h2]
      show (deviceNames (add_devices st.1 "Ecephys"
        (some ⟨none, some ⟨some [⟨elec.device_name.getD d0.device_name, none⟩],
          none⟩⟩))).Nodup
      exact add_devices_names_nodup st.1 "Ecephys" _ h

theorem step_elecNames_nodup (d0 : DefaultElec) (st : NWBFile × List String)
    (elec : ElecDescr) (h : (electrodeNames st.1).Nodup) :
    (electrodeNames (createElectrodeStep d0 st elec).1).Nodup := by
  simp only [createElectrodeStep]
  by_cases h1 : (elec.name.getD d0.name) ∈ electrodeNames st.1
  · rw [if_pos h1]
    exact h
  · rw [if_neg h1]
    by_cases h2 : (elec.device_name.getD d0.device_name) ∈ deviceNames st.1
    · rw [if_pos h2]
      show (List.map (fun e => e.name) (st.1.icephys_electrodes
        ++ [⟨elec.name.getD d0.name, elec.description.getD d0.description,
          elec.device_name.getD d0.device_name⟩])).Nodup
      rw [List.map_append]
      exact nodup_append_singleton h h1
    · rw [if_neg h2]
      show (List.map (fun e => e.name) ((add_devices st.1 "Ecephys"
        (some ⟨none, some ⟨some [⟨elec.device_name.getD d0.device_name, none⟩],
          none⟩⟩)).icephys_electrodes
        ++ [⟨elec.name.getD d0.name, elec.description.getD d0.description,
          elec.device_name.getD d0.device_name⟩])).Nodup
      rw [List.map_append, add_devices_elecs]
      exact nodup_append_singleton h h1

theorem fold_devNames_nodup (d0 : DefaultElec) (l : List ElecDescr) :
    ∀ st, (deviceNames st.1).Nodup
      → (deviceNames ((l.foldl (createElectrodeStep d0) st)).1).Nodup := by
  induction l with
  | nil => intro st h; exact h
  | cons e l ih =>
    intro st h
    rw [List.foldl_cons]
    exact ih _ (step_devNames_nodup d0 st e h)

theorem fold_elecNames_nodup (d0 : DefaultElec) (l : List ElecDescr) :
    ∀ st, (electrodeNames st.1).Nodup
      → (electrodeNames ((l.foldl (createElectrodeStep d0) st)).1).Nodup := by
  induction l with
  | nil => intro st h; exact h
  | cons e l ih =>
    intro st h
    rw [List.foldl_cons]
    exact ih _ (step_elecNames_nodup d0 st e h)

theorem fold_elecNames_mem (d0 : DefaultElec) (l : List ElecDescr)
    (st : NWBFile × List String) (x : String) (hx : x ∈ electrodeNames st.1) :
    x ∈ electrodeNames ((l.foldl (createElectrodeStep d0) st)).1 := by
  obtain ⟨t, ht⟩ := fold_elecs_append d0 l st
  unfold electrodeNames
  rw [ht, List.map_append]
  exact List.mem_append_left _ hx

theorem step_name_present (d0 : DefaultElec) (st : NWBFile × List String)
    (elec : ElecDescr) :
    (elec.name.getD d0.name) ∈ electrodeNames (createElectrodeStep d0 st elec).1 := by
  simp only [createElectrodeStep]
  by_cases h1 : (elec.name.getD d0.name) ∈ electrodeNames st.1
  · rw [if_pos h1]
    exact h1
  · rw [if_neg h1]
    by_cases h2 : (elec.device_name.getD d0.device_name) ∈ deviceNames st.1
    · rw [if_pos h2]
      show _ ∈ List.map (fun e => e.name) (st.1.icephys_electrodes
        ++ [⟨elec.name.getD d0.name, elec.description.getD d0.description,
          elec.device_name.getD d0.device_name⟩])
      rw [List.map_append]
      exact List.mem_append_right _ (List.mem_singleton_self _)
    · rw [if_neg h2]
      show _ ∈ List.map (fun e => e.name) ((add_devices st.1 "Ecephys"
        (some ⟨none, some ⟨some [⟨elec.device_name.getD d0.device_name, none⟩],
          none⟩⟩)).icephys_electrodes
        ++ [⟨elec.name.getD d0.name, elec.description.getD d0.description,
          elec.device_name.getD d0.device_name⟩])
      rw [List.map_append, add_devices_elecs]
      exact List.mem_append_right _ (List.mem_singleton_self _)

theorem fold_names_present (d0 : DefaultElec) (l : List ElecDescr) :
    ∀ st, ∀ elec ∈ l,
      (elec.name.getD d0.name) ∈ electrodeNames ((l.foldl (createElectrodeStep d0) st)).1 := by
  induction l with
  | nil => intro st elec h; exact absurd h (List.not_mem_nil elec)
  | cons e l ih =>
    intro st elec hmem
    rw [List.foldl_cons]
    rcases List.mem_cons.mp hmem with heq | htail
    · subst heq
      exact fold_elecNames_mem d0 l (createElectrodeStep d0 st elec) _
        (step_name_present d0 st elec)
    · exact ih (createElectrodeStep d0 st e) elec htail

theorem step_id_of_present (d0 : DefaultElec) (st : NWBFile × List String)
    (elec : ElecDescr) (h : (elec.name.getD d0.name) ∈ electrodeNames st.1) :
    createElectrodeStep d0 st elec = st := by
  simp only [createElectrodeStep]
  rw [if_pos h]

theorem fold_id_of_present (d0 : DefaultElec) (l : List ElecDescr) :
    ∀ st, (∀ elec ∈ l, (elec.name.getD d0.name) ∈ electrodeNames st.1) →
      l.foldl (createElectrodeStep d0) st = st := by
  induction l with
  | nil => intro st _; rfl
  | cons e l ih =>
    intro st h
    rw [List.foldl_cons, step_id_of_present d0 st e (h e (List.mem_cons_self e l))]
    exact ih st (fun elec hm => h elec (List.mem_cons_of_mem e hm))

theorem ne_nil_head?_append {α : Type} (l t : List α) (h : l ≠ []) :
    (l ++ t).head? = l.head? := by
  cases l with
  | nil => exact absurd rfl h
  | cons a l => rfl

theorem defaultElecList_congr (n : Nat) (f g : NWBFile)
    (h : (deviceNames f).head? = (deviceNames g).head?) :
    defaultElecList n f = defaultElecList n g := by
  unfold defaultElecList
  rw [h]

theorem fold_devNames_head (d0 : DefaultElec) (l : List ElecDescr)
    (st : NWBFile × List String) (hne : st.1.devices ≠ []) :
    (deviceNames ((l.foldl (createElectrodeStep d0) st)).1).head?
      = (deviceNames st.1).head? := by
  obtain ⟨t, ht⟩ := fold_devices_prefix d0 l st
  unfold deviceNames
  rw [ht, List.map_append]
  exact ne_nil_head?_append _ _ (by
    intro hc
    rw [List.map_eq_nil_iff] at hc
    exact hne hc)

theorem fold_devices_ne_nil (d0 : DefaultElec) (l : List ElecDescr)
    (st : NWBFile × List String) (hne : st.1.devices ≠ []) :
    ((l.foldl (createElectrodeStep d0) st)).1.devices ≠ [] := by
  obtain ⟨t, ht⟩ := fold_devices_prefix d0 l st
  rw [ht]
  intro hc
  exact hne (List.append_eq_nil.mp hc).1

/-- C6: name-keyed resolution is idempotent. Starting from a container with
unique device and electrode names, a successful `add_icephys_electrode` call
keeps both name sets duplicate-free (no duplicate entity is ever added), and
repeating the identical call on the resulting container changes nothing:
every name resolves to the already-registered entity, so the second call
returns the same container and also succeeds. -/
theorem resolve_idempotent (r : NeoReader) (f : NWBFile) (md : Option Metadata)
    (hdn : (deviceNames f).Nodup) (hen : (electrodeNames f).Nodup)
    (hok : (add_icephys_electrode r f md).error = none) :
    ((deviceNames (add_icephys_electrode r f md).nwbfile).Nodup ∧
     (electrodeNames (add_icephys_electrode r f md).nwbfile).Nodup) ∧
    (add_icephys_electrode r (add_icephys_electrode r f md).nwbfile md).nwbfile
        = (add_icephys_electrode r f md).nwbfile ∧
    (add_icephys_electrode r (add_icephys_electrode r f md).nwbfile md).error = none := by
  have hrepdn : (deviceNames (repairStage f md).1).Nodup :=
    repairStage_devNames_nodup f md hdn
  have hrepen : (electrodeNames (repairStage f md).1).Nodup := by
    rw [repairStage_elecNames]
    exact hen
  cases hdef : defaultElecList (get_number_of_electrodes r) (repairStage f md).1 with
  | none =>
    rw [elec_call_none_branch r f md hdef] at hok
    exact Option.noConfusion hok
  | some defaults =>
    cases hall : (effectiveItems defaults md).all isMapItem with
    | false =>
      rw [elec_call_assert_branch r f md defaults hdef hall] at hok
      exact Option.noConfusion hok
    | true =>
      cases hfm : (effectiveItems defaults md).filterMap toDescr with
      | nil =>
        rw [elec_call_empty_branch r f md defaults hdef hall hfm]
        have hne : (repairStage f md).1.devices ≠ [] := repairStage_devices_ne_nil f md
        have hdef2 : defaultElecList (get_number_of_electrodes r)
            (repairStage (repairStage f md).1 md).1 = some defaults := by
          rw [repairStage_of_ne_nil (repairStage f md).1 md hne]
          exact hdef
        have hsecond : add_icephys_electrode r (repairStage f md).1 md
            = ⟨(repairStage (repairStage f md).1 md).1,
               (repairStage (repairStage f md).1 md).2, none⟩ :=
          elec_call_empty_branch r (repairStage f md).1 md defaults hdef2 hall hfm
        rw [repairStage_of_ne_nil (repairStage f md).1 md hne] at hsecond
        exact ⟨⟨hrepdn, hrepen⟩, by rw [hsecond], by rw [hsecond]⟩
      | cons dsc rest =>
        cases hd0 : defaults.head? with
        | none =>
          rw [elec_call_headnone_branch r f md defaults dsc rest hdef hall hfm hd0] at hok
          exact Option.noConfusion hok
        | some d0 =>
          rw [elec_call_loop_branch r f md defaults dsc rest d0 hdef hall hfm hd0]
          have hne : (repairStage f md).1.devices ≠ [] := repairStage_devices_ne_nil f md
          have hFne : (((dsc :: rest).foldl (createElectrodeStep d0)
              (repairStage f md))).1.devices ≠ [] :=
            fold_devices_ne_nil d0 (dsc :: rest) (repairStage f md) hne
          have hdef2 : defaultElecList (get_number_of_electrodes r)
              (repairStage ((dsc :: rest).foldl (createElectrodeStep d0)
                (repairStage f md)).1 md).1 = some defaults := by
            rw [repairStage_of_ne_nil _ md hFne]
            rw [defaultElecList_congr (get_number_of_electrodes r) _ (repairStage f md).1
              (fold_devNames_head d0 (dsc :: rest) (repairStage f md) hne)]
            exact hdef
          have hfold2 : (dsc :: rest).foldl (createElectrodeStep d0)
              (((dsc :: rest).foldl (createElectrodeStep d0) (repairStage f md)).1, [])
              = (((dsc :: rest).foldl (createElectrodeStep d0) (repairStage f md)).1, []) :=
            fold_id_of_present d0 (dsc :: rest) _
              (fun elec hm => fold_names_present d0 (dsc :: rest) (repairStage f md) elec hm)
          have hsecond : add_icephys_electrode r
              ((dsc :: rest).foldl (createElectrodeStep d0) (repairStage f md)).1 md
              = ⟨((dsc :: rest).foldl (createElectrodeStep d0) (repairStage f md)).1,
                 [], none⟩ := by
            have h1 := elec_call_loop_branch r
              ((dsc :: rest).foldl (createElectrodeStep d0) (repairStage f md)).1 md
              defaults dsc rest d0 hdef2 hall hfm hd0
            rw [repairStage_of_ne_nil _ md hFne] at h1
            rw [hfold2] at h1
            exact h1
          refine ⟨⟨fold_devNames_nodup d0 (dsc :: rest) (repairStage f md) hrepdn,
            fold_elecNames_nodup d0 (dsc :: rest) (repairStage f md) hrepen⟩, ?_, ?_⟩
          · rw [hsecond]
          · rw [hsecond]

/-- Witness for C6: starting from the empty container with no metadata, the
first call synthesizes the device and the default electrode; the repeated
call is the identity and succeeds. -/
theorem resolve_idempotent_witness :
    ((deviceNames (add_icephys_electrode c5Reader c8File none).nwbfile).Nodup ∧
     (electrodeNames (add_icephys_electrode c5Reader c8File none).nwbfile).Nodup) ∧
    (add_icephys_electrode c5Reader
        (add_icephys_electrode c5Reader c8File none).nwbfile none).nwbfile
      = (add_icephys_electrode c5Reader c8File none).nwbfile ∧
    (add_icephys_electrode c5Reader
        (add_icephys_electrode c5Reader c8File none).nwbfile none).error = none :=
  resolve_idempotent c5Reader c8File none (by decide) (by decide) (by decide)

end NwbConv
